import Mathlib

/-!
Verification of the batch-collapse retention engine (`retention.go`).

The repository holds two variants of the engine:

* a *keyed* variant: `BatchCollapse` with `Values : map[string]interface{}`,
  `Collapse(key, value)`, a driver loop calling `doProcess(false)` every tick,
  and `Cancel()` which runs `doProcess(true)` then sets `IsCanceled`;
* a *single-slot* variant: `BatchCollapse` with a single `Value interface{}`
  field, `Collapse(value)`, an inline `doProcess` in `executeIfCompleted`,
  and a `Cancel()` which invokes the callback one last time.

The embedding below is shallow:

* `time.Time` and `time.Duration` become `Nat`; `t.Before(u)` is `t < u`,
  `t.Add(d)` is `t + d`.  Each operation takes the current time `now` as an
  explicit argument (the Go code reads `time.Now()` under the lock; a whole
  locked section is modelled with one `now`).
* the Go map `Values` becomes an association list `List (String × V)`;
  Go map iteration is modelled as sequential traversal of that list
  (iteration order is unspecified in Go, and the design document states the
  flush order within a pass is unspecified as well).
* the user callback `ExecuteFunc func(interface{})` is opaque; the state only
  records whether it is nil (`hasExecuteFunc`), and every invocation the code
  would perform is appended to an explicit call trace returned by the
  operation, holding the argument the code passes.
* `interface{}` payloads of the single-slot variant become `Option V`, with
  `none` for Go `nil`; the keyed variant stores payloads of an arbitrary
  type `V` (its map membership test does not inspect the payload).
* the mutex, the context, the background goroutine and the OS signal
  registration are concurrency plumbing: operations are serialised by the
  single lock, so a run of the system is a sequence of atomic operations
  (`Collapse`, one driver tick `doProcess(false)`, `Cancel`), modelled by an
  `Op` type and a `run` function folding `step` over an operation list.
-/

namespace BatchCollapseRetention

/-- Modelled from the spec (§4.1 Timing Policy): the pure decision function
`shouldFlush(now, lastExec, nextExec, maxDuration, force)`, written exactly as
the disjunction the design gives:
`force OR now > nextExec OR now > lastExec + maxDuration`.
This is the specification-side definition; the code-side guard lives inside
`Keyed.processEntries` / `SingleSlot.doProcess` and is compared against this
one in the refinement theorem for claim C2. -/
def shouldFlush (now lastExec nextExec maxDuration : Nat) (force : Bool) : Bool :=
  force || decide (now > nextExec) || decide (now > lastExec + maxDuration)

namespace Keyed

/-- Keyed variant of `BatchCollapse` (retention.go, first file): the exported
`Values` map and `IsCanceled` flag, the embedded `Config` fields
(`RetentionDuration`, `MaxDuration`, and whether `ExecuteFunc` is non-nil),
and the unexported watermarks `lastExec` / `nextExec`.  The `ctxCancel` and
`mutex` fields are concurrency plumbing with no data content. -/
structure BatchCollapse (V : Type) where
  values : List (String × V)
  isCanceled : Bool
  retentionDuration : Nat
  maxDuration : Nat
  hasExecuteFunc : Bool
  lastExec : Nat
  nextExec : Nat
deriving DecidableEq

variable {V : Type}

/-- Association-list lookup, modelling Go map indexing `bc.Values[key]`. -/
def lookupKey (k : String) : List (String × V) → Option V
  | [] => none
  | (k', v) :: rest => if k' = k then some v else lookupKey k rest

/-- `KeyExists`: `_, ok := bc.Values[key]; return ok`. -/
def KeyExists (k : String) (values : List (String × V)) : Bool :=
  (lookupKey k values).isSome

/-- `CreateBatchCollapse`: empty map, `lastExec = now`,
`nextExec = now + RetentionDuration`, not canceled.  The goroutines it spawns
(signal listener, driver loop) are modelled as `Op`s in a run. -/
def CreateBatchCollapse (V : Type) (retentionDuration maxDuration : Nat)
    (hasExecuteFunc : Bool) (now : Nat) : BatchCollapse V :=
  { values := []
    isCanceled := false
    retentionDuration := retentionDuration
    maxDuration := maxDuration
    hasExecuteFunc := hasExecuteFunc
    lastExec := now
    nextExec := now + retentionDuration }

/-- `Collapse(key, value)`: under the lock, if the key is absent insert it,
then re-arm `nextExec = now + RetentionDuration` unconditionally. -/
def Collapse (now : Nat) (k : String) (v : V) (bc : BatchCollapse V) :
    BatchCollapse V :=
  { bc with
    values := if KeyExists k bc.values then bc.values else (k, v) :: bc.values
    nextExec := now + bc.retentionDuration }

/-- Result of one `doProcess` pass over the map: the entries that remain, the
final watermarks, and the entries that were flushed, in flush order (the
argument of each `ExecuteFunc` call is the flushed entry's value). -/
structure PassResult (V : Type) where
  kept : List (String × V)
  lastExec : Nat
  nextExec : Nat
  flushed : List (String × V)
deriving DecidableEq

/-- The `for key, value := range bc.Values` loop body of `doProcess`:
for each entry, if
`bc.KeyExists(key) && bc.ExecuteFunc != nil && (forceProcess || bc.nextExec.Before(now) || bc.lastExec.Add(bc.MaxDuration).Before(now))`
then call `ExecuteFunc(value)`, set `lastExec = now`,
`nextExec = now + RetentionDuration`, and `delete(bc.Values, key)`;
later entries of the same pass observe the updated watermarks.
In Go, `KeyExists` consults the live map; since map keys are unique and only
the entry being visited is ever deleted, the visited key is always still
present, which the head position of the entry in the remaining list models. -/
def processEntries (ret maxD : Nat) (hasExec : Bool) (now : Nat) (force : Bool) :
    List (String × V) → Nat → Nat → PassResult V
  | [], lastE, nextE => { kept := [], lastExec := lastE, nextExec := nextE, flushed := [] }
  | (k, v) :: rest, lastE, nextE =>
    if KeyExists k ((k, v) :: rest) && hasExec &&
        (force || decide (nextE < now) || decide (lastE + maxD < now)) then
      let r := processEntries ret maxD hasExec now force rest now (now + ret)
      { kept := r.kept, lastExec := r.lastExec, nextExec := r.nextExec,
        flushed := (k, v) :: r.flushed }
    else
      let r := processEntries ret maxD hasExec now force rest lastE nextE
      { kept := (k, v) :: r.kept, lastExec := r.lastExec, nextExec := r.nextExec,
        flushed := r.flushed }

/-- `doProcess(forceProcess)`: run the pass over the whole map under the lock;
the second component is the list of arguments passed to `ExecuteFunc`. -/
def doProcess (now : Nat) (force : Bool) (bc : BatchCollapse V) :
    BatchCollapse V × List V :=
  let r := processEntries bc.retentionDuration bc.maxDuration bc.hasExecuteFunc
    now force bc.values bc.lastExec bc.nextExec
  ({ bc with values := r.kept, lastExec := r.lastExec, nextExec := r.nextExec },
    r.flushed.map Prod.snd)

/-- `Cancel()`: cancel the context (stopping the driver loop), run
`doProcess(true)`, then set `IsCanceled = true`. -/
def Cancel (now : Nat) (bc : BatchCollapse V) : BatchCollapse V × List V :=
  let p := doProcess now true bc
  ({ p.1 with isCanceled := true }, p.2)

/-- One serialised operation on a keyed engine: a caller's `Collapse`, one
driver-loop tick (`doProcess(false)`), or `Cancel`. -/
inductive Op (V : Type) where
  | collapse (now : Nat) (k : String) (v : V)
  | tick (now : Nat)
  | cancel (now : Nat)
deriving DecidableEq

/-- Whether an operation is a `Cancel` call. -/
def Op.isCancel : Op V → Bool
  | .cancel _ => true
  | _ => false

/-- Effect of one operation: next state and the `ExecuteFunc` calls it makes. -/
def step : Op V → BatchCollapse V → BatchCollapse V × List V
  | .collapse now k v, bc => (Collapse now k v bc, [])
  | .tick now, bc => doProcess now false bc
  | .cancel now, bc => Cancel now bc

/-- A run: fold `step` over an operation sequence, concatenating call traces. -/
def run : List (Op V) → BatchCollapse V → BatchCollapse V × List V
  | [], bc => (bc, [])
  | op :: ops, bc =>
    let p := step op bc
    let q := run ops p.1
    (q.1, p.2 ++ q.2)

end Keyed

namespace SingleSlot

/-- Single-slot variant of `BatchCollapse` (retention.go, second file): the
exported `Value interface{}` (with Go `nil` as `none`) and `IsCanceled`, the
embedded `Config`, and the watermarks. -/
structure BatchCollapse (V : Type) where
  value : Option V
  isCanceled : Bool
  retentionDuration : Nat
  maxDuration : Nat
  hasExecuteFunc : Bool
  lastExec : Nat
  nextExec : Nat
deriving DecidableEq

variable {V : Type}

/-- `CreateBatchCollapse`: `Value = nil`, `lastExec = now`,
`nextExec = now + RetentionDuration`. -/
def CreateBatchCollapse (V : Type) (retentionDuration maxDuration : Nat)
    (hasExecuteFunc : Bool) (now : Nat) : BatchCollapse V :=
  { value := none
    isCanceled := false
    retentionDuration := retentionDuration
    maxDuration := maxDuration
    hasExecuteFunc := hasExecuteFunc
    lastExec := now
    nextExec := now + retentionDuration }

/-- `Collapse(value)`: under the lock, `if bc.Value == nil { bc.Value = value }`,
then `nextExec = now + RetentionDuration`.  The payload is an `interface{}`
and may itself be nil (`none`). -/
def Collapse (now : Nat) (payload : Option V) (bc : BatchCollapse V) :
    BatchCollapse V :=
  { bc with
    value := match bc.value with
      | none => payload
      | some w => some w
    nextExec := now + bc.retentionDuration }

/-- The inline `doProcess` closure of `executeIfCompleted`: if
`bc.Value != nil && bc.ExecuteFunc != nil && (bc.nextExec.Before(now) || bc.lastExec.Add(bc.MaxDuration).Before(now))`
then call `ExecuteFunc(bc.Value)`, set `lastExec = now`,
`nextExec = now + RetentionDuration`, `bc.Value = nil`.  The second component
is the list of `ExecuteFunc` call arguments. -/
def doProcess (now : Nat) (bc : BatchCollapse V) :
    BatchCollapse V × List (Option V) :=
  if bc.value.isSome && bc.hasExecuteFunc &&
      (decide (bc.nextExec < now) || decide (bc.lastExec + bc.maxDuration < now)) then
    ({ bc with value := none, lastExec := now, nextExec := now + bc.retentionDuration },
      [bc.value])
  else (bc, [])

/-- `Cancel()`: cancel the context, then under the lock
`if bc.Value != nil && bc.ExecuteFunc != nil { bc.ExecuteFunc(bc.Value) }`,
then `IsCanceled = true`.  Note: unlike the keyed variant, it does not clear
`Value` and does not touch the watermarks. -/
def Cancel (bc : BatchCollapse V) : BatchCollapse V × List (Option V) :=
  if bc.value.isSome && bc.hasExecuteFunc then
    ({ bc with isCanceled := true }, [bc.value])
  else ({ bc with isCanceled := true }, [])

/-- One serialised operation on a single-slot engine. -/
inductive Op (V : Type) where
  | collapse (now : Nat) (payload : Option V)
  | tick (now : Nat)
  | cancel
deriving DecidableEq

/-- Effect of one operation: next state and the `ExecuteFunc` calls it makes. -/
def step : Op V → BatchCollapse V → BatchCollapse V × List (Option V)
  | .collapse now p, bc => (Collapse now p bc, [])
  | .tick now, bc => doProcess now bc
  | .cancel, bc => Cancel bc

/-- A run: fold `step` over an operation sequence, concatenating call traces. -/
def run : List (Op V) → BatchCollapse V → BatchCollapse V × List (Option V)
  | [], bc => (bc, [])
  | op :: ops, bc =>
    let p := step op bc
    let q := run ops p.1
    (q.1, p.2 ++ q.2)

end SingleSlot

namespace Keyed

variable {V : Type}

theorem lookupKey_cons_self (k : String) (v : V) (rest : List (String × V)) :
    lookupKey k ((k, v) :: rest) = some v := by
  simp [lookupKey]

theorem KeyExists_cons_self (k : String) (v : V) (rest : List (String × V)) :
    KeyExists k ((k, v) :: rest) = true := by
  simp [KeyExists, lookupKey_cons_self]

/-- A forced pass with a non-nil callback flushes every entry and keeps none. -/
theorem processEntries_force (ret maxD now : Nat) :
    ∀ (entries : List (String × V)) (lastE nextE : Nat),
      (processEntries ret maxD true now true entries lastE nextE).kept = [] ∧
      (processEntries ret maxD true now true entries lastE nextE).flushed = entries := by
  intro entries
  induction entries with
  | nil => intro lastE nextE; simp [processEntries]
  | cons hd rest ih =>
    intro lastE nextE
    obtain ⟨k, v⟩ := hd
    simp only [processEntries]
    split
    · exact ⟨(ih now (now + ret)).1, by rw [(ih now (now + ret)).2]⟩
    · rename_i hcond
      exact absurd (by simp [KeyExists_cons_self]) hcond

/-- With a nil callback the pass is the identity: nothing is flushed, nothing
is removed, the watermarks are untouched. -/
theorem processEntries_noExec (ret maxD now : Nat) (force : Bool) :
    ∀ (entries : List (String × V)) (lastE nextE : Nat),
      processEntries ret maxD false now force entries lastE nextE =
        { kept := entries, lastExec := lastE, nextExec := nextE, flushed := [] } := by
  intro entries
  induction entries with
  | nil => intro lastE nextE; simp [processEntries]
  | cons hd rest ih =>
    intro lastE nextE
    obtain ⟨k, v⟩ := hd
    simp [processEntries, ih]

/-- Each input entry of a pass ends up either kept or flushed, exactly once:
the input is a permutation of the kept entries together with the flushed ones. -/
theorem processEntries_perm (ret maxD : Nat) (hasExec : Bool) (now : Nat)
    (force : Bool) :
    ∀ (entries : List (String × V)) (lastE nextE : Nat),
      entries.Perm
        ((processEntries ret maxD hasExec now force entries lastE nextE).kept ++
          (processEntries ret maxD hasExec now force entries lastE nextE).flushed) := by
  intro entries
  induction entries with
  | nil => intro lastE nextE; simp [processEntries]
  | cons hd rest ih =>
    intro lastE nextE
    obtain ⟨k, v⟩ := hd
    simp only [processEntries]
    split
    · exact ((ih now (now + ret)).cons (k, v)).trans List.perm_middle.symm
    · exact (ih lastE nextE).cons (k, v)

/-- A pass with an empty flush list leaves the watermarks unchanged. -/
theorem processEntries_flushed_nil_watermarks (ret maxD : Nat) (hasExec : Bool)
    (now : Nat) (force : Bool) :
    ∀ (entries : List (String × V)) (lastE nextE : Nat),
      (processEntries ret maxD hasExec now force entries lastE nextE).flushed = [] →
      (processEntries ret maxD hasExec now force entries lastE nextE).lastExec = lastE ∧
      (processEntries ret maxD hasExec now force entries lastE nextE).nextExec = nextE := by
  intro entries
  induction entries with
  | nil => intro lastE nextE _; simp [processEntries]
  | cons hd rest ih =>
    intro lastE nextE hnil
    obtain ⟨k, v⟩ := hd
    simp only [processEntries] at hnil ⊢
    split at hnil
    · simp at hnil
    · rename_i hcond
      simp only [hcond, if_false] at hnil ⊢
      exact ih lastE nextE hnil

/-- If a pass flushed anything, its final watermarks are `now` and
`now + retentionDuration`: every flush sets them to these values. -/
theorem processEntries_flushed_watermarks (ret maxD : Nat) (hasExec : Bool)
    (now : Nat) (force : Bool) :
    ∀ (entries : List (String × V)) (lastE nextE : Nat),
      (processEntries ret maxD hasExec now force entries lastE nextE).flushed ≠ [] →
      (processEntries ret maxD hasExec now force entries lastE nextE).lastExec = now ∧
      (processEntries ret maxD hasExec now force entries lastE nextE).nextExec = now + ret := by
  intro entries
  induction entries with
  | nil => intro lastE nextE h; simp [processEntries] at h
  | cons hd rest ih =>
    intro lastE nextE h
    obtain ⟨k, v⟩ := hd
    simp only [processEntries] at h ⊢
    split at h
    · rename_i hcond
      simp only [hcond, if_true]
      by_cases hrest :
          (processEntries ret maxD hasExec now force rest now (now + ret)).flushed = []
      · exact processEntries_flushed_nil_watermarks ret maxD hasExec now force
          rest now (now + ret) hrest
      · exact ih now (now + ret) hrest
    · rename_i hcond
      simp only [hcond, if_false] at h ⊢
      exact ih lastE nextE h

theorem mem_of_mem_kept (ret maxD : Nat) (hasExec : Bool) (now : Nat)
    (force : Bool) (entries : List (String × V)) (lastE nextE : Nat)
    (p : String × V)
    (hp : p ∈ (processEntries ret maxD hasExec now force entries lastE nextE).kept) :
    p ∈ entries :=
  (processEntries_perm ret maxD hasExec now force entries lastE nextE).mem_iff.mpr
    (List.mem_append_left _ hp)

theorem mem_of_mem_flushed (ret maxD : Nat) (hasExec : Bool) (now : Nat)
    (force : Bool) (entries : List (String × V)) (lastE nextE : Nat)
    (p : String × V)
    (hp : p ∈ (processEntries ret maxD hasExec now force entries lastE nextE).flushed) :
    p ∈ entries :=
  (processEntries_perm ret maxD hasExec now force entries lastE nextE).mem_iff.mpr
    (List.mem_append_right _ hp)

/-- With distinct keys (the Go map invariant), the key of every flushed entry
is absent from the kept entries: a flushed key is gone from the pending store. -/
theorem processEntries_flushed_not_kept (ret maxD : Nat) (hasExec : Bool)
    (now : Nat) (force : Bool) :
    ∀ (entries : List (String × V)) (lastE nextE : Nat),
      (entries.map Prod.fst).Nodup →
      ∀ p ∈ (processEntries ret maxD hasExec now force entries lastE nextE).flushed,
        p.1 ∉ (processEntries ret maxD hasExec now force entries lastE nextE).kept.map
          Prod.fst := by
  intro entries
  induction entries with
  | nil => intro lastE nextE _ p hp; simp [processEntries] at hp
  | cons hd rest ih =>
    intro lastE nextE hnodup p hp hmem
    obtain ⟨k, v⟩ := hd
    rw [List.map_cons, List.nodup_cons] at hnodup
    obtain ⟨hknot, hrestdup⟩ := hnodup
    simp only [processEntries] at hp hmem
    by_cases hcond : (KeyExists k ((k, v) :: rest) && hasExec &&
        (force || decide (nextE < now) || decide (lastE + maxD < now))) = true
    · rw [if_pos hcond] at hp hmem
      simp only [List.mem_cons] at hp
      simp only at hmem
      rcases hp with hpk | hptail
      · subst hpk
        obtain ⟨q, hq, hq1⟩ := List.mem_map.mp hmem
        exact hknot (hq1 ▸ List.mem_map_of_mem Prod.fst
          (mem_of_mem_kept ret maxD hasExec now force rest now (now + ret) q hq))
      · exact ih now (now + ret) hrestdup p hptail hmem
    · rw [if_neg hcond] at hp hmem
      simp only [List.map_cons, List.mem_cons] at hp hmem
      rcases hmem with hpk | hmem'
      · exact hknot (List.mem_map.mpr
          ⟨p, mem_of_mem_flushed ret maxD hasExec now force rest lastE nextE p hp, hpk⟩)
      · exact ih lastE nextE hrestdup p hp hmem'

theorem lookupKey_Collapse_preserved (now : Nat) (k' : String) (v' : V)
    (bc : BatchCollapse V) (k : String) (v : V)
    (h : lookupKey k bc.values = some v) :
    lookupKey k (Collapse now k' v' bc).values = some v := by
  simp only [Collapse]
  by_cases hex : KeyExists k' bc.values
  · simp [hex, h]
  · simp only [hex, if_false]
    by_cases hk : k' = k
    · subst hk
      simp [KeyExists, h] at hex
    · simpa [lookupKey, hk] using h

theorem doProcess_noExec (now : Nat) (force : Bool) (bc : BatchCollapse V)
    (h : bc.hasExecuteFunc = false) :
    doProcess now force bc = (bc, []) := by
  obtain ⟨vals, c, ret, maxD, he, le, ne⟩ := bc
  simp only at h
  subst h
  simp [doProcess, processEntries_noExec]

theorem step_hasExecuteFunc (op : Op V) (bc : BatchCollapse V) :
    (step op bc).1.hasExecuteFunc = bc.hasExecuteFunc := by
  cases op <;> simp [step, Collapse, doProcess, Cancel]

theorem step_isCanceled_mono (op : Op V) (bc : BatchCollapse V)
    (h : bc.isCanceled = true) : (step op bc).1.isCanceled = true := by
  cases op <;> simp [step, Collapse, doProcess, Cancel, h]

theorem step_isCanceled_of_not_cancel (op : Op V) (bc : BatchCollapse V)
    (h : op.isCancel = false) : (step op bc).1.isCanceled = bc.isCanceled := by
  cases op <;> simp_all [step, Op.isCancel, Collapse, doProcess]

theorem run_isCanceled_mono (ops : List (Op V)) (bc : BatchCollapse V)
    (h : bc.isCanceled = true) : (run ops bc).1.isCanceled = true := by
  induction ops generalizing bc with
  | nil => exact h
  | cons op ops ih =>
    simp only [run]
    exact ih (step op bc).1 (step_isCanceled_mono op bc h)

theorem run_isCanceled_no_cancel (ops : List (Op V)) (bc : BatchCollapse V)
    (h : ∀ op ∈ ops, op.isCancel = false) :
    (run ops bc).1.isCanceled = bc.isCanceled := by
  induction ops generalizing bc with
  | nil => rfl
  | cons op ops ih =>
    simp only [run]
    rw [ih (step op bc).1 fun o ho => h o (List.mem_cons_of_mem op ho)]
    exact step_isCanceled_of_not_cancel op bc (h op (List.mem_cons_self op ops))

theorem step_noExec (op : Op V) (bc : BatchCollapse V)
    (hexec : bc.hasExecuteFunc = false) (k : String) (v : V)
    (h : lookupKey k bc.values = some v) :
    lookupKey k (step op bc).1.values = some v ∧ (step op bc).2 = [] := by
  cases op with
  | collapse now k' v' =>
    exact ⟨lookupKey_Collapse_preserved now k' v' bc k v h, rfl⟩
  | tick now =>
    simp only [step, doProcess_noExec now false bc hexec]
    exact ⟨h, trivial⟩
  | cancel now =>
    simp only [step, Cancel, doProcess_noExec now true bc hexec]
    exact ⟨h, trivial⟩

theorem run_noExec (ops : List (Op V)) (bc : BatchCollapse V)
    (hexec : bc.hasExecuteFunc = false) (k : String) (v : V)
    (h : lookupKey k bc.values = some v) :
    lookupKey k (run ops bc).1.values = some v ∧ (run ops bc).2 = [] := by
  induction ops generalizing bc with
  | nil => exact ⟨h, rfl⟩
  | cons op ops ih =>
    simp only [run]
    obtain ⟨h1, h2⟩ := step_noExec op bc hexec k v h
    have hexec' : (step op bc).1.hasExecuteFunc = false :=
      (step_hasExecuteFunc op bc).trans hexec
    obtain ⟨h3, h4⟩ := ih (step op bc).1 hexec' h1
    exact ⟨h3, by rw [h2, h4]; rfl⟩

theorem lookupKey_mem (k : String) (v : V) :
    ∀ values : List (String × V), lookupKey k values = some v → (k, v) ∈ values := by
  intro values
  induction values with
  | nil => intro h; simp [lookupKey] at h
  | cons hd rest ih =>
    obtain ⟨k', v'⟩ := hd
    intro h
    simp only [lookupKey] at h
    by_cases hk : k' = k
    · rw [if_pos hk] at h
      subst hk
      cases h
      exact List.mem_cons_self _ _
    · exact List.mem_cons_of_mem _ (ih (by rwa [if_neg hk] at h))

/-- The whole pass of `doProcess(force)` over the store of `bc`. -/
def pass (now : Nat) (force : Bool) (bc : BatchCollapse V) : PassResult V :=
  processEntries bc.retentionDuration bc.maxDuration bc.hasExecuteFunc
    now force bc.values bc.lastExec bc.nextExec

theorem doProcess_eq_pass (now : Nat) (force : Bool) (bc : BatchCollapse V) :
    doProcess now force bc =
      ({ bc with
          values := (pass now force bc).kept,
          lastExec := (pass now force bc).lastExec,
          nextExec := (pass now force bc).nextExec },
        (pass now force bc).flushed.map Prod.snd) := rfl

end Keyed

namespace SingleSlot

variable {V : Type}

/-- Whether an operation is a `Cancel` call. -/
def Op.isCancel : Op V → Bool
  | .cancel => true
  | _ => false

theorem step_calls_isSome (op : Op V) (bc : BatchCollapse V) :
    ∀ c ∈ (step op bc).2, c.isSome = true := by
  cases op with
  | collapse now p => simp [step]
  | tick now =>
    simp only [step, doProcess]
    split
    · rename_i h
      simp only [Bool.and_eq_true] at h
      intro c hc
      simp only [List.mem_singleton] at hc
      subst hc
      exact h.1.1
    · simp
  | cancel =>
    simp only [step, Cancel]
    split
    · rename_i h
      simp only [Bool.and_eq_true] at h
      intro c hc
      simp only [List.mem_singleton] at hc
      subst hc
      exact h.1
    · simp

theorem run_calls_isSome (ops : List (Op V)) (bc : BatchCollapse V) :
    ∀ c ∈ (run ops bc).2, c.isSome = true := by
  induction ops generalizing bc with
  | nil => simp [run]
  | cons op ops ih =>
    intro c hc
    simp only [run, List.mem_append] at hc
    rcases hc with hc | hc
    · exact step_calls_isSome op bc c hc
    · exact ih (step op bc).1 c hc

theorem run_calls_all_isSome (ops : List (Op V)) (bc : BatchCollapse V) :
    (run ops bc).2.all Option.isSome = true :=
  List.all_eq_true.mpr fun c hc => run_calls_isSome ops bc c hc

theorem slot_step_hasExecuteFunc (op : Op V) (bc : BatchCollapse V) :
    (step op bc).1.hasExecuteFunc = bc.hasExecuteFunc := by
  cases op with
  | collapse now p => rfl
  | tick now =>
    simp only [step, doProcess]
    split <;> rfl
  | cancel =>
    simp only [step, Cancel]
    split <;> rfl

theorem slot_step_noExec (op : Op V) (bc : BatchCollapse V) (w : V)
    (hexec : bc.hasExecuteFunc = false) (hv : bc.value = some w) :
    (step op bc).1.value = some w ∧ (step op bc).2 = [] := by
  cases op with
  | collapse now p => simp [step, Collapse, hv]
  | tick now => simp [step, doProcess, hexec, hv]
  | cancel => simp [step, Cancel, hexec, hv]

theorem slot_run_noExec (ops : List (Op V)) (bc : BatchCollapse V) (w : V)
    (hexec : bc.hasExecuteFunc = false) (hv : bc.value = some w) :
    (run ops bc).1.value = some w ∧ (run ops bc).2 = [] := by
  induction ops generalizing bc with
  | nil => exact ⟨hv, rfl⟩
  | cons op ops ih =>
    simp only [run]
    obtain ⟨h1, h2⟩ := slot_step_noExec op bc w hexec hv
    have hexec' : (step op bc).1.hasExecuteFunc = false :=
      (slot_step_hasExecuteFunc op bc).trans hexec
    obtain ⟨h3, h4⟩ := ih (step op bc).1 hexec' h1
    exact ⟨h3, by rw [h2, h4]; rfl⟩

theorem slot_step_isCanceled_mono (op : Op V) (bc : BatchCollapse V)
    (h : bc.isCanceled = true) : (step op bc).1.isCanceled = true := by
  cases op with
  | collapse now p => simpa [step, Collapse] using h
  | tick now =>
    simp only [step, doProcess]
    split <;> simpa using h
  | cancel =>
    simp only [step, Cancel]
    split <;> rfl

theorem slot_step_isCanceled_of_not_cancel (op : Op V) (bc : BatchCollapse V)
    (h : op.isCancel = false) : (step op bc).1.isCanceled = bc.isCanceled := by
  cases op with
  | collapse now p => rfl
  | tick now =>
    simp only [step, doProcess]
    split <;> rfl
  | cancel => simp [Op.isCancel] at h

theorem slot_run_isCanceled_mono (ops : List (Op V)) (bc : BatchCollapse V)
    (h : bc.isCanceled = true) : (run ops bc).1.isCanceled = true := by
  induction ops generalizing bc with
  | nil => exact h
  | cons op ops ih =>
    simp only [run]
    exact ih (step op bc).1 (slot_step_isCanceled_mono op bc h)

theorem slot_run_isCanceled_no_cancel (ops : List (Op V)) (bc : BatchCollapse V)
    (h : ∀ op ∈ ops, op.isCancel = false) :
    (run ops bc).1.isCanceled = bc.isCanceled := by
  induction ops generalizing bc with
  | nil => rfl
  | cons op ops ih =>
    simp only [run]
    rw [ih (step op bc).1 fun o ho => h o (List.mem_cons_of_mem op ho)]
    exact slot_step_isCanceled_of_not_cancel op bc (h op (List.mem_cons_self op ops))

end SingleSlot

/-- C2: the flush decision for an entry at evaluation time is exactly the
disjunction `shouldFlush(now, lastExec, nextExec, maxDuration, force) =
force OR now > nextExec OR now > lastExec + maxDuration`, given a non-nil
`executeFunc`.  Keyed variant: at each step of an evaluation pass the entry
under evaluation is flushed (delivered and removed, watermarks reset) exactly
when `hasExecuteFunc && shouldFlush` holds at the watermarks current at that
step, and is kept untouched otherwise.  Single-slot variant: a driver tick
flushes exactly when a value is pending and `hasExecuteFunc && shouldFlush`
holds with `force = false`. -/
theorem c2_flush_decision_iff_shouldFlush (V : Type) (ret maxD : Nat)
    (hasExec : Bool) (now : Nat) (force : Bool) (k : String) (v : V)
    (rest : List (String × V)) (lastE nextE : Nat)
    (s : SingleSlot.BatchCollapse V) :
    (Keyed.processEntries ret maxD hasExec now force ((k, v) :: rest) lastE nextE =
      if hasExec && shouldFlush now lastE nextE maxD force then
        { kept := (Keyed.processEntries ret maxD hasExec now force rest now (now + ret)).kept,
          lastExec := (Keyed.processEntries ret maxD hasExec now force rest now (now + ret)).lastExec,
          nextExec := (Keyed.processEntries ret maxD hasExec now force rest now (now + ret)).nextExec,
          flushed := (k, v) :: (Keyed.processEntries ret maxD hasExec now force rest now (now + ret)).flushed }
      else
        { kept := (k, v) :: (Keyed.processEntries ret maxD hasExec now force rest lastE nextE).kept,
          lastExec := (Keyed.processEntries ret maxD hasExec now force rest lastE nextE).lastExec,
          nextExec := (Keyed.processEntries ret maxD hasExec now force rest lastE nextE).nextExec,
          flushed := (Keyed.processEntries ret maxD hasExec now force rest lastE nextE).flushed }) ∧
    (SingleSlot.doProcess now s =
      if s.hasExecuteFunc && s.value.isSome &&
          shouldFlush now s.lastExec s.nextExec s.maxDuration false then
        ({ s with
            value := none,
            lastExec := now,
            nextExec := now + s.retentionDuration },
          [s.value])
      else (s, [])) := by
  constructor
  · have hk := Keyed.KeyExists_cons_self k v rest
    simp only [Keyed.processEntries, hk, Bool.true_and, shouldFlush]
  · simp only [SingleSlot.doProcess, shouldFlush, Bool.false_or]
    cases hv : s.value.isSome <;> cases he : s.hasExecuteFunc <;> simp [hv, he]

/-- C8: calling `cancel()` when no value is pending invokes `executeFunc`
zero times and still sets `isCanceled` to true, in both variants. -/
theorem c8_cancel_on_empty (V : Type) (bc : Keyed.BatchCollapse V) (now : Nat)
    (hempty : bc.values = []) (s : SingleSlot.BatchCollapse V)
    (hs : s.value = none) :
    (Keyed.Cancel now bc).2 = [] ∧ (Keyed.Cancel now bc).1.isCanceled = true ∧
    (SingleSlot.Cancel s).2 = [] ∧ (SingleSlot.Cancel s).1.isCanceled = true := by
  refine ⟨?_, rfl, ?_, ?_⟩
  · simp [Keyed.Cancel, Keyed.doProcess, hempty, Keyed.processEntries]
  · simp [SingleSlot.Cancel, hs]
  · simp only [SingleSlot.Cancel]
    split <;> rfl

/-- Witness for C8: a freshly constructed engine of each variant, cancelled
at time 7, makes no callback call and ends canceled. -/
theorem c8_cancel_on_empty_witness :
    (Keyed.Cancel 7 (Keyed.CreateBatchCollapse Nat 5 60 true 0)).2 = [] ∧
    (Keyed.Cancel 7 (Keyed.CreateBatchCollapse Nat 5 60 true 0)).1.isCanceled = true ∧
    (SingleSlot.Cancel (SingleSlot.CreateBatchCollapse Nat 5 60 true 0)).2 = [] ∧
    (SingleSlot.Cancel (SingleSlot.CreateBatchCollapse Nat 5 60 true 0)).1.isCanceled = true :=
  c8_cancel_on_empty Nat (Keyed.CreateBatchCollapse Nat 5 60 true 0) 7 rfl
    (SingleSlot.CreateBatchCollapse Nat 5 60 true 0) rfl

/-- C6: `Collapse` is unconditional and total: on EVERY state — key already
present or absent, slot occupied or empty, canceled or not — it sets
`nextExec = now + retentionDuration` and preserves the canceled flag
(`bc2`, `s2` below are arbitrary, so this covers the already-present-key and
occupied-slot cases); and a call for an absent key stores the value, also
when `isCanceled` is true. -/
theorem c6_collapse_unconditional (V : Type)
    (bc2 : Keyed.BatchCollapse V) (now2 : Nat) (k2 : String) (v2 : V)
    (s2 : SingleSlot.BatchCollapse V) (m2 : Nat) (p2 : Option V)
    (bc : Keyed.BatchCollapse V) (now : Nat) (k : String) (v : V)
    (s : SingleSlot.BatchCollapse V) (m : Nat) (p : Option V)
    (habs : Keyed.KeyExists k bc.values = false)
    (hnone : s.value = none) :
    (Keyed.Collapse now2 k2 v2 bc2).nextExec = now2 + bc2.retentionDuration ∧
    (Keyed.Collapse now2 k2 v2 bc2).isCanceled = bc2.isCanceled ∧
    (SingleSlot.Collapse m2 p2 s2).nextExec = m2 + s2.retentionDuration ∧
    (SingleSlot.Collapse m2 p2 s2).isCanceled = s2.isCanceled ∧
    Keyed.lookupKey k (Keyed.Collapse now k v bc).values = some v ∧
    (SingleSlot.Collapse m p s).value = p := by
  refine ⟨rfl, rfl, rfl, rfl, ?_, ?_⟩
  · simp [Keyed.Collapse, habs, Keyed.lookupKey_cons_self]
  · simp [SingleSlot.Collapse, hnone]

/-- Witness for C6: a second collapse on the already-present key "a" of a
cancelled keyed engine still re-arms the window and keeps the flag, as does a
collapse onto an occupied single slot; and collapsing a fresh key into the
cancelled (empty) keyed engine stores the value, like a non-nil payload into
an empty slot. -/
theorem c6_collapse_unconditional_witness :
    (Keyed.Collapse 9 "a" 3 (Keyed.Collapse 2 "a" 1
      (Keyed.Cancel 1 (Keyed.CreateBatchCollapse Nat 5 60 true 0)).1)).nextExec = 9 + 5 ∧
    (Keyed.Collapse 9 "a" 3 (Keyed.Collapse 2 "a" 1
      (Keyed.Cancel 1 (Keyed.CreateBatchCollapse Nat 5 60 true 0)).1)).isCanceled = true ∧
    (SingleSlot.Collapse 9 (some 8) (SingleSlot.Collapse 1 (some 7)
      (SingleSlot.CreateBatchCollapse Nat 5 60 true 0))).nextExec = 9 + 5 ∧
    (SingleSlot.Collapse 9 (some 8) (SingleSlot.Collapse 1 (some 7)
      (SingleSlot.CreateBatchCollapse Nat 5 60 true 0))).isCanceled = false ∧
    Keyed.lookupKey "a" (Keyed.Collapse 9 "a" 3
      (Keyed.Cancel 1 (Keyed.CreateBatchCollapse Nat 5 60 true 0)).1).values = some 3 ∧
    (SingleSlot.Collapse 4 (some 8) (SingleSlot.CreateBatchCollapse Nat 5 60 true 0)).value = some 8 :=
  c6_collapse_unconditional Nat
    (Keyed.Collapse 2 "a" 1 (Keyed.Cancel 1 (Keyed.CreateBatchCollapse Nat 5 60 true 0)).1)
    9 "a" 3
    (SingleSlot.Collapse 1 (some 7) (SingleSlot.CreateBatchCollapse Nat 5 60 true 0))
    9 (some 8)
    (Keyed.Cancel 1 (Keyed.CreateBatchCollapse Nat 5 60 true 0)).1 9 "a" 3
    (SingleSlot.CreateBatchCollapse Nat 5 60 true 0) 4 (some 8)
    (by decide) rfl

/-- C7: a nil `executeFunc` is accepted at construction; with a nil
`executeFunc` no callback is ever invoked and no pending entry is ever
removed — neither by driver ticks nor by `cancel()` — along any operation
sequence, in either variant: once stored, an entry stays pending forever. -/
theorem c7_nil_executeFunc (V : Type) (ret maxD now0 : Nat)
    (bc : Keyed.BatchCollapse V) (k : String) (v : V)
    (ops : List (Keyed.Op V)) (t : SingleSlot.BatchCollapse V) (w : V)
    (opsS : List (SingleSlot.Op V))
    (hexec : bc.hasExecuteFunc = false)
    (hv : Keyed.lookupKey k bc.values = some v)
    (ht : t.hasExecuteFunc = false) (hw : t.value = some w) :
    (Keyed.CreateBatchCollapse V ret maxD false now0).hasExecuteFunc = false ∧
    (Keyed.CreateBatchCollapse V ret maxD false now0).values = [] ∧
    Keyed.lookupKey k (Keyed.run ops bc).1.values = some v ∧
    (Keyed.run ops bc).2 = [] ∧
    (SingleSlot.run opsS t).1.value = some w ∧
    (SingleSlot.run opsS t).2 = [] := by
  obtain ⟨h1, h2⟩ := Keyed.run_noExec ops bc hexec k v hv
  obtain ⟨h3, h4⟩ := SingleSlot.slot_run_noExec opsS t w ht hw
  exact ⟨rfl, rfl, h1, h2, h3, h4⟩

/-- Witness for C7: an entry stored under key "a" with a nil callback
survives a tick and a cancel untouched, with no callback call; same for the
single-slot value 4. -/
theorem c7_nil_executeFunc_witness :
    (Keyed.CreateBatchCollapse Nat 5 60 false 0).hasExecuteFunc = false ∧
    (Keyed.CreateBatchCollapse Nat 5 60 false 0).values = [] ∧
    Keyed.lookupKey "a" (Keyed.run [Keyed.Op.tick 100, Keyed.Op.cancel 200]
      (Keyed.Collapse 1 "a" 1 (Keyed.CreateBatchCollapse Nat 5 60 false 0))).1.values = some 1 ∧
    (Keyed.run [Keyed.Op.tick 100, Keyed.Op.cancel 200]
      (Keyed.Collapse 1 "a" 1 (Keyed.CreateBatchCollapse Nat 5 60 false 0))).2 = [] ∧
    (SingleSlot.run [SingleSlot.Op.tick 100, SingleSlot.Op.cancel]
      (SingleSlot.Collapse 1 (some 4) (SingleSlot.CreateBatchCollapse Nat 5 60 false 0))).1.value = some 4 ∧
    (SingleSlot.run [SingleSlot.Op.tick 100, SingleSlot.Op.cancel]
      (SingleSlot.Collapse 1 (some 4) (SingleSlot.CreateBatchCollapse Nat 5 60 false 0))).2 = [] :=
  c7_nil_executeFunc Nat 5 60 0
    (Keyed.Collapse 1 "a" 1 (Keyed.CreateBatchCollapse Nat 5 60 false 0)) "a" 1
    [Keyed.Op.tick 100, Keyed.Op.cancel 200]
    (SingleSlot.Collapse 1 (some 4) (SingleSlot.CreateBatchCollapse Nat 5 60 false 0)) 4
    [SingleSlot.Op.tick 100, SingleSlot.Op.cancel]
    rfl (by decide) rfl rfl

/-- C9: `isCanceled` is false at construction and monotone: any operation
sequence keeps it true once true, and a sequence without `cancel` never
changes it, in either variant. -/
theorem c9_isCanceled_monotone (V : Type) (ret maxD : Nat) (he : Bool)
    (now0 : Nat) (bc : Keyed.BatchCollapse V) (ops : List (Keyed.Op V))
    (s : SingleSlot.BatchCollapse V) (opsS : List (SingleSlot.Op V))
    (bc2 : Keyed.BatchCollapse V) (ops2 : List (Keyed.Op V))
    (s2 : SingleSlot.BatchCollapse V) (opsS2 : List (SingleSlot.Op V))
    (hbc : bc.isCanceled = true) (hs : s.isCanceled = true)
    (hnc : ∀ op ∈ ops2, op.isCancel = false)
    (hncS : ∀ op ∈ opsS2, op.isCancel = false) :
    (Keyed.CreateBatchCollapse V ret maxD he now0).isCanceled = false ∧
    (SingleSlot.CreateBatchCollapse V ret maxD he now0).isCanceled = false ∧
    (Keyed.run ops bc).1.isCanceled = true ∧
    (SingleSlot.run opsS s).1.isCanceled = true ∧
    (Keyed.run ops2 bc2).1.isCanceled = bc2.isCanceled ∧
    (SingleSlot.run opsS2 s2).1.isCanceled = s2.isCanceled :=
  ⟨rfl, rfl, Keyed.run_isCanceled_mono ops bc hbc,
    SingleSlot.slot_run_isCanceled_mono opsS s hs,
    Keyed.run_isCanceled_no_cancel ops2 bc2 hnc,
    SingleSlot.slot_run_isCanceled_no_cancel opsS2 s2 hncS⟩

/-- Witness for C9: concrete cancelled engines stay cancelled across a
collapse and a tick; cancel-free sequences leave fresh engines uncancelled. -/
theorem c9_isCanceled_monotone_witness :
    (Keyed.CreateBatchCollapse Nat 5 60 true 0).isCanceled = false ∧
    (SingleSlot.CreateBatchCollapse Nat 5 60 true 0).isCanceled = false ∧
    (Keyed.run [Keyed.Op.collapse 2 "a" 1, Keyed.Op.tick 3]
      (Keyed.Cancel 1 (Keyed.CreateBatchCollapse Nat 5 60 true 0)).1).1.isCanceled = true ∧
    (SingleSlot.run [SingleSlot.Op.collapse 2 (some 1), SingleSlot.Op.tick 3]
      (SingleSlot.Cancel (SingleSlot.CreateBatchCollapse Nat 5 60 true 0)).1).1.isCanceled = true ∧
    (Keyed.run [Keyed.Op.collapse 2 "a" 1, Keyed.Op.tick 3]
      (Keyed.CreateBatchCollapse Nat 5 60 true 0)).1.isCanceled =
      (Keyed.CreateBatchCollapse Nat 5 60 true 0).isCanceled ∧
    (SingleSlot.run [SingleSlot.Op.collapse 2 (some 1), SingleSlot.Op.tick 3]
      (SingleSlot.CreateBatchCollapse Nat 5 60 true 0)).1.isCanceled =
      (SingleSlot.CreateBatchCollapse Nat 5 60 true 0).isCanceled :=
  c9_isCanceled_monotone Nat 5 60 true 0
    (Keyed.Cancel 1 (Keyed.CreateBatchCollapse Nat 5 60 true 0)).1
    [Keyed.Op.collapse 2 "a" 1, Keyed.Op.tick 3]
    (SingleSlot.Cancel (SingleSlot.CreateBatchCollapse Nat 5 60 true 0)).1
    [SingleSlot.Op.collapse 2 (some 1), SingleSlot.Op.tick 3]
    (Keyed.CreateBatchCollapse Nat 5 60 true 0)
    [Keyed.Op.collapse 2 "a" 1, Keyed.Op.tick 3]
    (SingleSlot.CreateBatchCollapse Nat 5 60 true 0)
    [SingleSlot.Op.collapse 2 (some 1), SingleSlot.Op.tick 3]
    rfl rfl (by decide) (by decide)

/-- C10: in the single-slot variant presence is encoded as `Value != nil`:
collapsing a nil payload stores nothing (the slot stays empty, only the
retention window is re-armed), a later non-nil payload becomes the stored
value, and no run ever delivers a nil argument to `executeFunc`. -/
theorem c10_nil_payload (V : Type) (s : SingleSlot.BatchCollapse V)
    (now1 now2 : Nat) (w : V) (t : SingleSlot.BatchCollapse V)
    (opsS : List (SingleSlot.Op V)) (hs : s.value = none) :
    (SingleSlot.Collapse now1 none s).value = none ∧
    (SingleSlot.Collapse now1 none s).nextExec = now1 + s.retentionDuration ∧
    (SingleSlot.Collapse now2 (some w) (SingleSlot.Collapse now1 none s)).value = some w ∧
    (SingleSlot.run opsS t).2.all Option.isSome = true := by
  refine ⟨?_, rfl, ?_, SingleSlot.run_calls_all_isSome opsS t⟩
  · simp [SingleSlot.Collapse, hs]
  · simp [SingleSlot.Collapse, hs]

/-- Witness for C10: a nil collapse at time 1 leaves the fresh slot empty but
re-arms the window; a following `some 3` at time 2 is stored; a concrete run
delivers only non-nil arguments. -/
theorem c10_nil_payload_witness :
    (SingleSlot.Collapse 1 none (SingleSlot.CreateBatchCollapse Nat 5 60 true 0)).value = none ∧
    (SingleSlot.Collapse 1 none (SingleSlot.CreateBatchCollapse Nat 5 60 true 0)).nextExec = 1 + 5 ∧
    (SingleSlot.Collapse 2 (some 3) (SingleSlot.Collapse 1 none (SingleSlot.CreateBatchCollapse Nat 5 60 true 0))).value = some 3 ∧
    (SingleSlot.run [SingleSlot.Op.collapse 1 (some 2), SingleSlot.Op.tick 100, SingleSlot.Op.cancel]
      (SingleSlot.CreateBatchCollapse Nat 5 60 true 0)).2.all Option.isSome = true :=
  c10_nil_payload Nat (SingleSlot.CreateBatchCollapse Nat 5 60 true 0) 1 2 3
    (SingleSlot.CreateBatchCollapse Nat 5 60 true 0)
    [SingleSlot.Op.collapse 1 (some 2), SingleSlot.Op.tick 100, SingleSlot.Op.cancel]
    rfl

/-- C1: first write wins: `collapse(K, v1)` then `collapse(K, v2)` before any
flush leaves `v1` as the stored pending value for `K`, and `v1` is the value
passed to `executeFunc` when `K` is eventually flushed (here by the forced
drain); the second call does not overwrite the first.  In the single-slot
variant the implicit single slot plays the role of `K`. -/
theorem c1_first_write_wins (V : Type) (bc : Keyed.BatchCollapse V)
    (now1 now2 now3 : Nat) (k : String) (v1 v2 : V)
    (s : SingleSlot.BatchCollapse V) (m1 m2 : Nat) (w1 w2 : V)
    (habs : Keyed.KeyExists k bc.values = false)
    (hexec : bc.hasExecuteFunc = true) (hs : s.value = none) :
    Keyed.lookupKey k
      (Keyed.Collapse now2 k v2 (Keyed.Collapse now1 k v1 bc)).values = some v1 ∧
    v1 ∈ (Keyed.Cancel now3 (Keyed.Collapse now2 k v2 (Keyed.Collapse now1 k v1 bc))).2 ∧
    (SingleSlot.Collapse m2 (some w2) (SingleSlot.Collapse m1 (some w1) s)).value = some w1 := by
  have hv1 : (Keyed.Collapse now1 k v1 bc).values = (k, v1) :: bc.values := by
    simp [Keyed.Collapse, habs]
  have hex2 : Keyed.KeyExists k (Keyed.Collapse now1 k v1 bc).values = true := by
    rw [hv1]; exact Keyed.KeyExists_cons_self k v1 bc.values
  have hv2 : (Keyed.Collapse now2 k v2 (Keyed.Collapse now1 k v1 bc)).values =
      (k, v1) :: bc.values := by
    have hstep : (Keyed.Collapse now2 k v2 (Keyed.Collapse now1 k v1 bc)).values =
        if Keyed.KeyExists k (Keyed.Collapse now1 k v1 bc).values then
          (Keyed.Collapse now1 k v1 bc).values
        else (k, v2) :: (Keyed.Collapse now1 k v1 bc).values := rfl
    rw [hstep, hex2, if_pos rfl, hv1]
  refine ⟨?_, ?_, ?_⟩
  · rw [hv2]; exact Keyed.lookupKey_cons_self k v1 bc.values
  · have hex3 : (Keyed.Collapse now2 k v2 (Keyed.Collapse now1 k v1 bc)).hasExecuteFunc
        = true := hexec
    simp only [Keyed.Cancel, Keyed.doProcess]
    rw [hex3, hv2]
    rw [(Keyed.processEntries_force _ _ now3 ((k, v1) :: bc.values) _ _).2]
    rw [List.map_cons]
    exact List.mem_cons_self _ _
  · simp [SingleSlot.Collapse, hs]

/-- Witness for C1: collapsing 1 then 2 under key "a" stores 1, the drain
delivers 1, and the single-slot engine keeps 7 over a later 8. -/
theorem c1_first_write_wins_witness :
    Keyed.lookupKey "a"
      (Keyed.Collapse 2 "a" 2 (Keyed.Collapse 1 "a" 1
        (Keyed.CreateBatchCollapse Nat 5 60 true 0))).values = some 1 ∧
    1 ∈ (Keyed.Cancel 3 (Keyed.Collapse 2 "a" 2 (Keyed.Collapse 1 "a" 1
      (Keyed.CreateBatchCollapse Nat 5 60 true 0)))).2 ∧
    (SingleSlot.Collapse 4 (some 8) (SingleSlot.Collapse 3 (some 7)
      (SingleSlot.CreateBatchCollapse Nat 5 60 true 0))).value = some 7 :=
  c1_first_write_wins Nat (Keyed.CreateBatchCollapse Nat 5 60 true 0) 1 2 3 "a" 1 2
    (SingleSlot.CreateBatchCollapse Nat 5 60 true 0) 3 4 7 8 rfl rfl rfl

/-- C4: with a pending value and a non-nil `executeFunc`, `cancel()` flushes
that value via `executeFunc` — no timing condition is required — and after
`cancel()` the `isCanceled` flag is true, in both variants. -/
theorem c4_cancel_drains (V : Type) (bc : Keyed.BatchCollapse V) (now : Nat)
    (k : String) (v : V) (s : SingleSlot.BatchCollapse V) (w : V)
    (hv : Keyed.lookupKey k bc.values = some v)
    (hexec : bc.hasExecuteFunc = true)
    (hs : s.value = some w) (hse : s.hasExecuteFunc = true) :
    v ∈ (Keyed.Cancel now bc).2 ∧
    (Keyed.Cancel now bc).1.isCanceled = true ∧
    (SingleSlot.Cancel s).2 = [some w] ∧
    (SingleSlot.Cancel s).1.isCanceled = true := by
  refine ⟨?_, rfl, ?_, ?_⟩
  · simp only [Keyed.Cancel, Keyed.doProcess]
    rw [hexec]
    rw [(Keyed.processEntries_force bc.retentionDuration bc.maxDuration now
      bc.values bc.lastExec bc.nextExec).2]
    exact List.mem_map.mpr ⟨(k, v), Keyed.lookupKey_mem k v bc.values hv, rfl⟩
  · simp [SingleSlot.Cancel, hs, hse]
  · simp only [SingleSlot.Cancel]
    split <;> rfl

/-- Witness for C4: cancelling at time 2, with retention 5 not yet elapsed,
still delivers the pending 10 in both variants and sets the flag. -/
theorem c4_cancel_drains_witness :
    10 ∈ (Keyed.Cancel 2 (Keyed.Collapse 1 "a" 10
      (Keyed.CreateBatchCollapse Nat 5 60 true 0))).2 ∧
    (Keyed.Cancel 2 (Keyed.Collapse 1 "a" 10
      (Keyed.CreateBatchCollapse Nat 5 60 true 0))).1.isCanceled = true ∧
    (SingleSlot.Cancel (SingleSlot.Collapse 1 (some 10)
      (SingleSlot.CreateBatchCollapse Nat 5 60 true 0))).2 = [some 10] ∧
    (SingleSlot.Cancel (SingleSlot.Collapse 1 (some 10)
      (SingleSlot.CreateBatchCollapse Nat 5 60 true 0))).1.isCanceled = true :=
  c4_cancel_drains Nat
    (Keyed.Collapse 1 "a" 10 (Keyed.CreateBatchCollapse Nat 5 60 true 0)) 2 "a" 10
    (SingleSlot.Collapse 1 (some 10) (SingleSlot.CreateBatchCollapse Nat 5 60 true 0)) 10
    (by decide) rfl rfl rfl

/-- C5: flush postcondition of an evaluation pass (keyed variant, non-nil
`executeFunc`, distinct keys): when the flush condition holds for the entry
under evaluation it is flushed; `executeFunc` receives exactly the flushed
entries' values in flush order; every flush sets `lastExec = now` and
`nextExec = now + retentionDuration` (so a pass that flushed anything ends
with these watermarks); and every flushed entry is removed from the store. -/
theorem c5_flush_postcondition (V : Type) (bc : Keyed.BatchCollapse V)
    (now : Nat) (force : Bool) (k : String) (v : V)
    (rest : List (String × V))
    (hexec : bc.hasExecuteFunc = true)
    (hnodup : (bc.values.map Prod.fst).Nodup)
    (hhead : bc.values = (k, v) :: rest)
    (hshould : shouldFlush now bc.lastExec bc.nextExec bc.maxDuration force = true) :
    (k, v) ∈ (Keyed.pass now force bc).flushed ∧
    (Keyed.doProcess now force bc).2 = (Keyed.pass now force bc).flushed.map Prod.snd ∧
    (Keyed.doProcess now force bc).1.values = (Keyed.pass now force bc).kept ∧
    (Keyed.doProcess now force bc).1.lastExec = now ∧
    (Keyed.doProcess now force bc).1.nextExec = now + bc.retentionDuration ∧
    ∀ p ∈ (Keyed.pass now force bc).flushed,
      p.1 ∉ (Keyed.doProcess now force bc).1.values.map Prod.fst := by
  have hcond : (Keyed.KeyExists k ((k, v) :: rest) && bc.hasExecuteFunc &&
      (force || decide (bc.nextExec < now) ||
        decide (bc.lastExec + bc.maxDuration < now))) = true := by
    rw [Keyed.KeyExists_cons_self, hexec]
    simpa [shouldFlush] using hshould
  have hmem : (k, v) ∈ (Keyed.pass now force bc).flushed := by
    simp only [Keyed.pass, hhead, Keyed.processEntries]
    rw [if_pos hcond]
    exact List.mem_cons_self _ _
  have hne : (Keyed.pass now force bc).flushed ≠ [] := List.ne_nil_of_mem hmem
  have hwm := Keyed.processEntries_flushed_watermarks bc.retentionDuration
    bc.maxDuration bc.hasExecuteFunc now force bc.values bc.lastExec bc.nextExec hne
  refine ⟨hmem, rfl, rfl, hwm.1, hwm.2, ?_⟩
  exact Keyed.processEntries_flushed_not_kept bc.retentionDuration bc.maxDuration
    bc.hasExecuteFunc now force bc.values bc.lastExec bc.nextExec hnodup

/-- Witness for C5: one pending entry ("a", 10), evaluated at time 100 well
past its window, is flushed with all three updates performed. -/
theorem c5_flush_postcondition_witness :
    ("a", 10) ∈ (Keyed.pass 100 false (Keyed.Collapse 1 "a" 10
      (Keyed.CreateBatchCollapse Nat 5 60 true 0))).flushed ∧
    (Keyed.doProcess 100 false (Keyed.Collapse 1 "a" 10
      (Keyed.CreateBatchCollapse Nat 5 60 true 0))).2 =
      (Keyed.pass 100 false (Keyed.Collapse 1 "a" 10
        (Keyed.CreateBatchCollapse Nat 5 60 true 0))).flushed.map Prod.snd ∧
    (Keyed.doProcess 100 false (Keyed.Collapse 1 "a" 10
      (Keyed.CreateBatchCollapse Nat 5 60 true 0))).1.values =
      (Keyed.pass 100 false (Keyed.Collapse 1 "a" 10
        (Keyed.CreateBatchCollapse Nat 5 60 true 0))).kept ∧
    (Keyed.doProcess 100 false (Keyed.Collapse 1 "a" 10
      (Keyed.CreateBatchCollapse Nat 5 60 true 0))).1.lastExec = 100 ∧
    (Keyed.doProcess 100 false (Keyed.Collapse 1 "a" 10
      (Keyed.CreateBatchCollapse Nat 5 60 true 0))).1.nextExec = 100 + 5 ∧
    ∀ p ∈ (Keyed.pass 100 false (Keyed.Collapse 1 "a" 10
      (Keyed.CreateBatchCollapse Nat 5 60 true 0))).flushed,
      p.1 ∉ (Keyed.doProcess 100 false (Keyed.Collapse 1 "a" 10
        (Keyed.CreateBatchCollapse Nat 5 60 true 0))).1.values.map Prod.fst :=
  c5_flush_postcondition Nat
    (Keyed.Collapse 1 "a" 10 (Keyed.CreateBatchCollapse Nat 5 60 true 0))
    100 false "a" 10 [] rfl (by decide) rfl (by decide)

/-- C3 (counterexample to the claim as stated): in the single-slot variant
`Cancel` invokes `executeFunc` with the pending value but does not clear the
slot: right after the flush performed by the first cancel the value 10 is
still pending, and a run of two cancel calls delivers the same collapsed
value 10 to `executeFunc` twice. -/
theorem c3_single_flush_counterexample :
    (SingleSlot.Cancel (SingleSlot.Collapse 0 (some 10)
      (SingleSlot.CreateBatchCollapse Nat 5 60 true 0))).1.value = some 10 ∧
    (SingleSlot.run [SingleSlot.Op.cancel, SingleSlot.Op.cancel]
      (SingleSlot.Collapse 0 (some 10)
        (SingleSlot.CreateBatchCollapse Nat 5 60 true 0))).2 = [some 10, some 10] := by
  constructor <;> rfl

/-- C3 (amended): keyed variant: in every evaluation pass — driver tick or
the forced pass run by `Cancel` — each pending entry is delivered at most
once (the prior store is a permutation of the kept entries plus the flushed
ones, which are exactly the `executeFunc` arguments), and with distinct keys
every flushed key is absent from the store immediately afterwards.  In the
single-slot variant a driver tick also delivers at most once and clears the
slot; only the single-slot `Cancel` delivers the pending value without
removing it. -/
theorem c3_single_flush_amended (V : Type) (bc : Keyed.BatchCollapse V)
    (now : Nat) (force : Bool) (s : SingleSlot.BatchCollapse V) (m : Nat)
    (hnodup : (bc.values.map Prod.fst).Nodup) :
    bc.values.Perm
      ((Keyed.doProcess now force bc).1.values ++ (Keyed.pass now force bc).flushed) ∧
    (Keyed.doProcess now force bc).2 = (Keyed.pass now force bc).flushed.map Prod.snd ∧
    (∀ p ∈ (Keyed.pass now force bc).flushed,
      p.1 ∉ (Keyed.doProcess now force bc).1.values.map Prod.fst) ∧
    ((SingleSlot.doProcess m s).2 = [] ∨
      ((SingleSlot.doProcess m s).2 = [s.value] ∧
        (SingleSlot.doProcess m s).1.value = none)) := by
  refine ⟨?_, rfl, ?_, ?_⟩
  · exact Keyed.processEntries_perm bc.retentionDuration bc.maxDuration
      bc.hasExecuteFunc now force bc.values bc.lastExec bc.nextExec
  · exact Keyed.processEntries_flushed_not_kept bc.retentionDuration bc.maxDuration
      bc.hasExecuteFunc now force bc.values bc.lastExec bc.nextExec hnodup
  · simp only [SingleSlot.doProcess]
    split
    · right; exact ⟨rfl, rfl⟩
    · left; rfl

/-- Witness for C3 (amended): a pass at time 100 over the two-entry store
{"b" ↦ 20, "a" ↦ 10} drains both, each delivered once and removed; the
single-slot tick at time 100 delivers the pending 5 once and clears it. -/
theorem c3_single_flush_amended_witness :
    (Keyed.Collapse 2 "b" 20 (Keyed.Collapse 1 "a" 10
      (Keyed.CreateBatchCollapse Nat 5 60 true 0))).values.Perm
      ((Keyed.doProcess 100 true (Keyed.Collapse 2 "b" 20 (Keyed.Collapse 1 "a" 10
        (Keyed.CreateBatchCollapse Nat 5 60 true 0)))).1.values ++
        (Keyed.pass 100 true (Keyed.Collapse 2 "b" 20 (Keyed.Collapse 1 "a" 10
          (Keyed.CreateBatchCollapse Nat 5 60 true 0)))).flushed) ∧
    (Keyed.doProcess 100 true (Keyed.Collapse 2 "b" 20 (Keyed.Collapse 1 "a" 10
      (Keyed.CreateBatchCollapse Nat 5 60 true 0)))).2 =
      (Keyed.pass 100 true (Keyed.Collapse 2 "b" 20 (Keyed.Collapse 1 "a" 10
        (Keyed.CreateBatchCollapse Nat 5 60 true 0)))).flushed.map Prod.snd ∧
    (∀ p ∈ (Keyed.pass 100 true (Keyed.Collapse 2 "b" 20 (Keyed.Collapse 1 "a" 10
      (Keyed.CreateBatchCollapse Nat 5 60 true 0)))).flushed,
      p.1 ∉ (Keyed.doProcess 100 true (Keyed.Collapse 2 "b" 20 (Keyed.Collapse 1 "a" 10
        (Keyed.CreateBatchCollapse Nat 5 60 true 0)))).1.values.map Prod.fst) ∧
    ((SingleSlot.doProcess 100 (SingleSlot.Collapse 1 (some 5)
      (SingleSlot.CreateBatchCollapse Nat 5 60 true 0))).2 = [] ∨
      ((SingleSlot.doProcess 100 (SingleSlot.Collapse 1 (some 5)
        (SingleSlot.CreateBatchCollapse Nat 5 60 true 0))).2 =
        [(SingleSlot.Collapse 1 (some 5)
          (SingleSlot.CreateBatchCollapse Nat 5 60 true 0)).value] ∧
        (SingleSlot.doProcess 100 (SingleSlot.Collapse 1 (some 5)
          (SingleSlot.CreateBatchCollapse Nat 5 60 true 0))).1.value = none)) :=
  c3_single_flush_amended Nat
    (Keyed.Collapse 2 "b" 20 (Keyed.Collapse 1 "a" 10
      (Keyed.CreateBatchCollapse Nat 5 60 true 0)))
    100 true
    (SingleSlot.Collapse 1 (some 5) (SingleSlot.CreateBatchCollapse Nat 5 60 true 0))
    100 (by decide)

end BatchCollapseRetention
